import Mathlib

set_option maxRecDepth 40000

/-!
Shallow embedding of `alphabet_recogniser/datasets/nistdb19.py`
(class `NISTDB19Dataset`), the single source file of the repository.

Conventions of the embedding:
* Paths handed to `os.listdir` / `os.path.join` are modelled as the list of
  joined components (`List String`), so platform separators are irrelevant.
* A decoded image (the result of `skimage.io.imread`) is a pixel array,
  modelled as `Img`; image equality is pixel-by-pixel equality.
* The external world (the filesystem being scanned, `os.path.expanduser`,
  `os.path.exists`, and the outcome of the `_download` step, which only
  touches the archive and never the `data` and `targets` lists) is an
  explicit environment `Env`; `Env.listing p` is the composition of
  `os.listdir` with `io.imread` on directory `p`, in listing order.
* Python `int` values are `Int`.  `size_per_class` is stored as a rational
  (`Rat`): a Python float is a dyadic rational, and `int == float` compares
  exact mathematical values, which the cast `(n : Rat) = spc` reproduces.
  The true division `size_limit /= num_classes` returns the correctly
  rounded IEEE-754 double of the exact quotient (round to nearest, ties to
  even), modelled by `floatDiv` with an unbounded exponent: runs where
  CPython would raise OverflowError (quotient magnitude at least 2^1024)
  appear here as ordinary successful runs, so every theorem about
  successful constructions covers every run Python completes; the
  subnormal range is unreachable (a nonzero quotient has magnitude at
  least 1/26).
* A `raise` is an `Except.error`; stateful methods take and return explicit
  state.
-/

/-- A decoded image: a pixel array, as returned by `io.imread`.
Equality of `Img` values is pixel-identical equality. -/
structure Img where
  pixels : List (List Nat)
deriving DecidableEq

/-- One entry of `NISTDB19Dataset.folder_map`: the first class code point
and the number of classes. -/
structure FolderMapEntry where
  start : Nat
  len : Nat
deriving DecidableEq

/-- `NISTDB19Dataset.folder_map`, a fixed dict from the data-type key to its
class range: digits `0x30..0x39`, capital letters `0x41..0x5a`, lowercase
letters `0x61..0x7a`. -/
def folder_map (s : String) : Option FolderMapEntry :=
  if s = "digits" then some ⟨0x30, 10⟩
  else if s = "cap_letters" then some ⟨0x41, 26⟩
  else if s = "low_letters" then some ⟨0x61, 26⟩
  else none

/-- `self.folder_map.get(data_type)` where `data_type` may be `None`
(the default) or any string; `dict.get` of an absent key returns `None`. -/
def folder_map_get (dt : Option String) : Option FolderMapEntry :=
  match dt with
  | none => none
  | some s => folder_map s

/-- One lowercase hexadecimal digit, as produced by Python `hex`. -/
def hexDigit (n : Nat) : Char :=
  if n < 10 then Char.ofNat (0x30 + n) else Char.ofNat (0x61 + (n - 10))

/-- Fuel-driven base-16 digit expansion (most significant first). -/
def toHexAux : Nat → Nat → List Char
  | 0, _ => []
  | fuel + 1, n => if n < 16 then [hexDigit n] else toHexAux fuel (n / 16) ++ [hexDigit (n % 16)]

/-- Python `hex(n)[2:]` for a nonnegative `n`: lowercase hexadecimal digits
with no prefix and no leading zeros. -/
def toHex (n : Nat) : String := String.mk (toHexAux (n + 1) n)

/-- Fuel-driven floor of the base-2 logarithm: halve until below 2.
(Defined with fuel because the library's well-founded `Nat.log2` does not
evaluate inside the kernel.) -/
def log2Aux : Nat → Nat → Nat
  | 0, _ => 0
  | fuel + 1, n => if n < 2 then 0 else log2Aux fuel (n / 2) + 1

/-- The floor of `log2 n` for `n` at least 1 (and 0 for `n = 0`): the fuel
`n` suffices since halving reaches 1 within `n` steps. -/
def natLog2 (n : Nat) : Nat := log2Aux n n

/-- The greatest `e : Int` with `2 ^ e ≤ a`, for a positive rational `a`.
With `L x` the floor of `log2 x` and `e0 := L a.num - L a.den`: from
`2 ^ L x ≤ x < 2 ^ (L x + 1)` applied to the numerator and the
denominator, `2 ^ (e0 - 1) < a < 2 ^ (e0 + 1)`, so the answer is `e0`
exactly when `2 ^ e0 ≤ a`, and otherwise `e0 - 1`. -/
def ilog2 (a : Rat) : Int :=
  let e0 : Int := (natLog2 a.num.toNat : Int) - (natLog2 a.den : Int)
  if (2 : Rat) ^ e0 ≤ a then e0 else e0 - 1

/-- Round a rational to the nearest integer, ties to the even neighbour. -/
def roundHalfEven (a : Rat) : Int :=
  let f := a.floor
  let r := a - (f : Rat)
  if r < 1 / 2 then f
  else if 1 / 2 < r then f + 1
  else if 2 ∣ f then f else f + 1

/-- The IEEE-754 double nearest to the exact rational `q` (round to
nearest, ties to even), as an exact rational, with unbounded exponent:
scale `|q|` into `[2^52, 2^53)`, round that significand to an integer, and
scale back.  This is the value a correctly rounded floating-point
operation returns whenever it returns a finite normal double. -/
def roundFloat (q : Rat) : Rat :=
  if q = 0 then 0
  else
    let a := |q|
    let e : Int := ilog2 a - 52
    let n := roundHalfEven (a / (2 : Rat) ^ e)
    if q < 0 then -((n : Rat) * (2 : Rat) ^ e) else (n : Rat) * (2 : Rat) ^ e

/-- Python true division of two ints, `size_limit / number_of_classes`:
CPython computes the correctly rounded double of the exact quotient. -/
def floatDiv (sl : Int) (len : Nat) : Rat :=
  roundFloat ((sl : Rat) / (len : Rat))

/-- The fields a `NISTDB19Dataset` instance holds after `__init__` returns:
the parallel `data` (images) and `targets` (labels) lists plus the stored
configuration.  `transform` is an opaque handle (it is only applied inside
`__getitem__`, which no claim touches). -/
structure Dataset where
  data : List Img
  targets : List Char
  data_type : String
  root_dir : String
  train : Bool
  transform : Option Nat
  size_per_class : Rat
deriving DecidableEq

/-- The `RuntimeError`s the module raises, one constructor per distinct
message site. -/
inductive Err where
  | badDataType
  | rootMissing (root : String)
  | downloadFail
  | notDataset (descr : String)
  | dirMissing (dir : String)
  | fileMissing (path : String)
deriving DecidableEq

/-- The external world of a construction run: `os.path.expanduser`,
`os.path.exists`, whether `_download` completes without raising (given the
`download` argument; `_download` only manipulates the archive, never the
sample lists), and the scanned directory tree (`os.listdir` composed with
`io.imread`, in listing order). -/
structure Env where
  expanduser : String → String
  path_exists : String → Bool
  download_ok : Bool → Bool
  listing : List String → List Img

/-- `NISTDB19Dataset._add_samples_from_dir(img_dir_path, target, newly_added)`.
The directory is already listed: `imgs` is `os.listdir` composed with
`io.imread` on `img_dir_path`.  The method appends each image to `self.data`
and `target` to `self.targets`, increments its local `newly_added`, and
returns `1` the moment the local counter compares equal to
`self.size_per_class`, else `0` after the listing is exhausted.  (The
`is None` guard at the top of the method never fires: every caller in
`_process` passes a joined path and a `chr` result.)  The counter is a
parameter because Python passes the `int` by value: increments inside the
method never reach the caller. -/
def add_samples_from_dir (spc : Rat) (tg : Char) :
    List Img → Nat → List Img → List Char → List Img × List Char × Nat
  | [], _, d, t => (d, t, 0)
  | img :: rest, newly_added, d, t =>
    let n := newly_added + 1
    if (n : Rat) = spc then (d ++ [img], t ++ [tg], 1)
    else add_samples_from_dir spc tg rest n (d ++ [img]) (t ++ [tg])

/-- The `for hsf_idx in range(0, 8)` loop of `_process` (train branch) for
one class, over the remaining partition indices.  Mirroring the source, the
third argument of every `_add_samples_from_dir` call is the caller's
`newly_added`, which is initialised to `0` before the loop and never
reassigned in `_process` (Python ints are immutable, so the callee's
increments do not update it): each call therefore starts the count at `0`.
The loop breaks when a call returns `1`. -/
def hsfLoop (env : Env) (root cname : String) (spc : Rat) (tg : Char) :
    List Nat → List Img → List Char → List Img × List Char
  | [], d, t => (d, t)
  | i :: rest, d, t =>
    let r := add_samples_from_dir spc tg
      (env.listing [root, "by_class", cname, "hsf_" ++ toString i]) 0 d t
    if r.2.2 = 1 then (r.1, r.2.1)
    else hsfLoop env root cname spc tg rest r.1 r.2.1

/-- The body of the class loop of `NISTDB19Dataset._process` for one
`class_idx = start + k`: compute `hex(class_idx)[2:]`, then in train mode
run the `hsf_0..hsf_7` loop, else scan the single `train_<hex>` folder,
discarding the returned flag. -/
def scanStep (env : Env) (root : String) (train : Bool) (spc : Rat)
    (fm : FolderMapEntry) (acc : List Img × List Char) (k : Nat) :
    List Img × List Char :=
  let class_idx := fm.start + k
  let cname := toHex class_idx
  if train then
    hsfLoop env root cname spc (Char.ofNat class_idx) (List.range 8) acc.1 acc.2
  else
    let r := add_samples_from_dir spc (Char.ofNat class_idx)
      (env.listing [root, "by_class", cname, "train_" ++ cname]) 0 acc.1 acc.2
    (r.1, r.2.1)

/-- The class loop of `NISTDB19Dataset._process` (everything after the
`_download` call): fold `scanStep` over `range(start, start + len)`,
starting from the empty `data` and `targets` lists. -/
def scanClasses (env : Env) (root : String) (train : Bool) (spc : Rat)
    (fm : FolderMapEntry) : List Img × List Char :=
  (List.range fm.len).foldl (scanStep env root train spc fm) ([], [])

/-- `NISTDB19Dataset.__init__`.  Checks `folder_map.get(data_type)` first
(raising the configuration error on `None` or an unknown key), stores the
fields, replaces `size_per_class` by the true-division quotient
`size_per_class / class_count` (the correctly rounded double) when
`size_limit_per_class` is false, then either runs `_process` (modelled as
the `_download` outcome followed by the class scan) when the expanded root
exists, or raises the path error. -/
def nistInit (env : Env) (root_dir : String) (train : Bool) (download : Bool)
    (data_type : Option String) (size_limit : Int) (size_limit_per_class : Bool)
    (transform : Option Nat) : Except Err Dataset :=
  match folder_map_get data_type with
  | none => .error .badDataType
  | some fm =>
    let dt := data_type.getD ""
    let root := env.expanduser root_dir
    let spc : Rat := if size_limit_per_class then (size_limit : Rat)
                     else floatDiv size_limit fm.len
    if env.path_exists root then
      if env.download_ok download then
        let dl := scanClasses env root train spc fm
        .ok ⟨dl.1, dl.2, dt, root, train, transform, spc⟩
      else .error .downloadFail
    else .error (.rootMissing root)

/-- `NISTDB19Dataset.__len__`: the length of `self.data`. -/
def datasetLength (ds : Dataset) : Nat := ds.data.length

/-- A concrete directory tree used by the evaluation theorems: class `30`
has one training image in `hsf_0` and two in `hsf_1`; its test folder
`train_30` has three images; every other directory is empty. -/
def exListing : List String → List Img
  | ["r", "by_class", "30", "hsf_0"] => [⟨[[0]]⟩]
  | ["r", "by_class", "30", "hsf_1"] => [⟨[[1]]⟩, ⟨[[2]]⟩]
  | ["r", "by_class", "30", "train_30"] => [⟨[[3]]⟩, ⟨[[4]]⟩, ⟨[[5]]⟩]
  | _ => []

/-- A concrete environment: identity `expanduser`, every path exists, the
download step succeeds, tree `exListing`. -/
def exEnv : Env := ⟨fun s => s, fun _ => true, fun _ => true, exListing⟩

instance : DecidableEq (Except Err Dataset) := fun a b =>
  match a, b with
  | .ok x, .ok y => if h : x = y then .isTrue (by rw [h]) else .isFalse (by simp [h])
  | .error x, .error y => if h : x = y then .isTrue (by rw [h]) else .isFalse (by simp [h])
  | .ok _, .error _ => .isFalse (by simp)
  | .error _, .ok _ => .isFalse (by simp)

/-- The concrete dataset built by `nistInit` on `exEnv` in train mode with
per-class limit 2. -/
def exDs : Dataset :=
  ((nistInit exEnv "r" true false (some "digits") 2 true none).toOption).get (by decide)

/-- Number of samples a construction run collected for one class
character (0 when construction raised). -/
def classCount (r : Except Err Dataset) (c : Char) : Nat :=
  match r with
  | .ok ds => ds.targets.count c
  | .error _ => 0

/-- The concrete dataset built by `nistInit` on `exEnv` in test mode with
per-class limit 2. -/
def exDsTest : Dataset :=
  ((nistInit exEnv "r" false false (some "digits") 2 true none).toOption).get (by decide)

/-- The concrete dataset built by `nistInit` on `exEnv` in train mode with
global limit 15 split over the 10 digit classes: the rounded double cap is
exactly 1.5, a fractional value. -/
def exDsFrac : Dataset :=
  ((nistInit exEnv "r" true false (some "digits") 15 false none).toOption).get
    (by with_unfolding_all rfl)

/-- `os.path.dirname` (posix semantics): everything before the last slash,
with trailing slashes stripped from the head unless the head is all
slashes; the empty string when the path has no slash. -/
def dirname (p : String) : String :=
  let rev := p.data.reverse
  let revHead := rev.dropWhile (fun c => c ≠ '/')
  if revHead = [] then ""
  else if revHead.all (fun c => c = '/') then String.mk revHead.reverse
  else String.mk ((revHead.dropWhile (fun c => c = '/')).reverse)

/-- The filesystem state `save_to_file` and `load_from_file` act on: the
set of existing directories and, for each existing regular file, the object
graph its compressed pickle decodes to.  `compress_pickle.dump` followed by
`compress_pickle.load` is modelled as storing and retrieving the object
itself (the round-trip fidelity of the serialization library is assumed,
as the source delegates it wholesale). -/
structure FileSys where
  dirs : List String
  files : List (String × Dataset)

/-- A regular file exists at `p`. -/
def fileExists (fs : FileSys) (p : String) : Bool :=
  (fs.files.lookup p).isSome

/-- `os.path.exists p`: true for directories and for files. -/
def fsPathExists (fs : FileSys) (p : String) : Bool :=
  fs.dirs.contains p || fileExists fs p

/-- The argument of `save_to_file`: either an instance of (a subclass of)
`NISTDB19Dataset`, or any other Python object (carrying only its printable
type description). -/
inductive Obj where
  | ds (d : Dataset)
  | other (descr : String)

/-- `NISTDB19Dataset.save_to_file(dataset, filepath, force_overwrite)`:
first the `isinstance` check, then the destination-directory check, then
the soft no-op refusal when the path exists and overwriting was not forced
(the warning print has no filesystem effect), else the compressed dump. -/
def save_to_file (fs : FileSys) (obj : Obj) (filepath : String)
    (force_overwrite : Bool) : FileSys × Except Err Unit :=
  match obj with
  | .other descr => (fs, .error (.notDataset descr))
  | .ds dataset =>
    if fsPathExists fs (dirname filepath) = false then
      (fs, .error (.dirMissing (dirname filepath)))
    else if !force_overwrite && fsPathExists fs filepath then
      (fs, .ok ())
    else
      ({ fs with files := (filepath, dataset) :: fs.files }, .ok ())

/-- `NISTDB19Dataset.load_from_file(filepath)`: the existence check, then
the compressed load.  (The second error arm is `open` failing because the
existing path is a directory, not a regular file.) -/
def load_from_file (fs : FileSys) (filepath : String) : Except Err Dataset :=
  if fsPathExists fs filepath = false then .error (.fileMissing filepath)
  else
    match fs.files.lookup filepath with
    | some d => .ok d
    | none => .error (.fileMissing filepath)

/-- Witness filesystem: one directory `d`, no files. -/
def exFs : FileSys := ⟨["d"], []⟩

/-- A small concrete dataset for the persistence witnesses. -/
def tinyDs : Dataset := ⟨[⟨[[7]]⟩], [Char.ofNat 0x30], "digits", "r", true, none, 2⟩

/-- Witness filesystem with an existing file. -/
def exFs2 : FileSys := ⟨["d"], [("d/f.bin", tinyDs)]⟩

/-- An environment whose filesystem has no paths at all. -/
def exEnvNoRoot : Env := ⟨fun s => s, fun _ => false, fun _ => true, fun _ => []⟩

/-- Structure of one `_add_samples_from_dir` call: some prefix of the
listing is appended to `data`, and the same number of copies of the target
character to `targets`. -/
theorem asd_shape (spc : Rat) (tg : Char) :
    ∀ (imgs : List Img) (n : Nat) (d : List Img) (t : List Char),
      ∃ k, k ≤ imgs.length ∧
        (add_samples_from_dir spc tg imgs n d t).1 = d ++ imgs.take k ∧
        (add_samples_from_dir spc tg imgs n d t).2.1 = t ++ List.replicate k tg := by
  intro imgs
  induction imgs with
  | nil =>
    intro n d t
    exact ⟨0, by simp, by simp [add_samples_from_dir], by simp [add_samples_from_dir]⟩
  | cons img rest ih =>
    intro n d t
    by_cases h : ((n + 1 : Nat) : Rat) = spc
    · refine ⟨1, by simp, ?_, ?_⟩ <;>
        · simp only [add_samples_from_dir]
          rw [if_pos h]
          simp
    · obtain ⟨k, hk, h1, h2⟩ := ih (n + 1) (d ++ [img]) (t ++ [tg])
      refine ⟨k + 1, by simp; omega, ?_, ?_⟩
      · simp only [add_samples_from_dir]
        rw [if_neg h, h1]
        simp
      · simp only [add_samples_from_dir]
        rw [if_neg h, h2]
        simp [List.replicate_succ]

/-- When no natural number compares equal to `size_per_class` (in
particular when it is fractional), `_add_samples_from_dir` appends the whole
listing and returns `0`. -/
theorem asd_nohit (spc : Rat) (tg : Char) (hno : ∀ j : Nat, (j : Rat) ≠ spc) :
    ∀ (imgs : List Img) (n : Nat) (d : List Img) (t : List Char),
      add_samples_from_dir spc tg imgs n d t
        = (d ++ imgs, t ++ List.replicate imgs.length tg, 0) := by
  intro imgs
  induction imgs with
  | nil => intro n d t; simp [add_samples_from_dir]
  | cons img rest ih =>
    intro n d t
    have h := hno (n + 1)
    simp only [add_samples_from_dir, h, if_false]
    rw [ih (n + 1) (d ++ [img]) (t ++ [tg])]
    simp [List.replicate_succ, List.append_assoc]

/-- With an integer limit `m` and a starting count `n < m`,
`_add_samples_from_dir` appends exactly `min |listing| (m - n)` samples. -/
theorem asd_int_length (m : Nat) (tg : Char) :
    ∀ (imgs : List Img) (n : Nat) (d : List Img) (t : List Char), n < m →
      (add_samples_from_dir (m : Rat) tg imgs n d t).1.length
          = d.length + min imgs.length (m - n) ∧
      (add_samples_from_dir (m : Rat) tg imgs n d t).2.1.length
          = t.length + min imgs.length (m - n) := by
  intro imgs
  induction imgs with
  | nil => intro n d t _; simp [add_samples_from_dir]
  | cons img rest ih =>
    intro n d t hn
    by_cases h : n + 1 = m
    · have hq : ((n + 1 : Nat) : Rat) = (m : Rat) := Nat.cast_inj.mpr h
      have hmn : m - n = 1 := by omega
      simp only [add_samples_from_dir]
      rw [if_pos hq]
      refine ⟨?_, ?_⟩ <;> simp [hmn]
    · have hq : ((n + 1 : Nat) : Rat) ≠ (m : Rat) := fun hc => h (Nat.cast_inj.mp hc)
      have hn' : n + 1 < m := by omega
      obtain ⟨h1, h2⟩ := ih (n + 1) (d ++ [img]) (t ++ [tg]) hn'
      simp only [add_samples_from_dir]
      rw [if_neg hq]
      constructor
      · rw [h1]; simp; omega
      · rw [h2]; simp; omega

/-- Inversion of a successful construction: the sample lists are exactly
those produced by the class scan, with the stored `size_per_class`. -/
theorem nistInit_ok_elim (env : Env) (root : String) (tr dl : Bool)
    (dt : Option String) (sl : Int) (pc : Bool) (tf : Option Nat)
    (fm : FolderMapEntry) (ds : Dataset)
    (hfg : folder_map_get dt = some fm)
    (h : nistInit env root tr dl dt sl pc tf = .ok ds) :
    ds.data = (scanClasses env (env.expanduser root) tr ds.size_per_class fm).1 ∧
    ds.targets = (scanClasses env (env.expanduser root) tr ds.size_per_class fm).2 ∧
    ds.size_per_class = (if pc then (sl : Rat) else floatDiv sl fm.len) ∧
    ds.train = tr := by
  unfold nistInit at h
  rw [hfg] at h
  dsimp only at h
  split at h
  · split at h
    · cases h
      simp
    · cases h
  · cases h

/-- Structure of one `hsf_0..hsf_7` loop run: some list of images is
appended to `data`, matched one-for-one by copies of the target character
in `targets`. -/
theorem hsfLoop_shape (env : Env) (root cname : String) (spc : Rat) (tg : Char) :
    ∀ (idxs : List Nat) (d : List Img) (t : List Char),
      ∃ l : List Img,
        (hsfLoop env root cname spc tg idxs d t).1 = d ++ l ∧
        (hsfLoop env root cname spc tg idxs d t).2 = t ++ List.replicate l.length tg := by
  intro idxs
  induction idxs with
  | nil => intro d t; exact ⟨[], by simp [hsfLoop], by simp [hsfLoop]⟩
  | cons i rest ih =>
    intro d t
    obtain ⟨k, hk, h1, h2⟩ := asd_shape spc tg
      (env.listing [root, "by_class", cname, "hsf_" ++ toString i]) 0 d t
    by_cases hflag : (add_samples_from_dir spc tg
        (env.listing [root, "by_class", cname, "hsf_" ++ toString i]) 0 d t).2.2 = 1
    · refine ⟨(env.listing [root, "by_class", cname, "hsf_" ++ toString i]).take k, ?_, ?_⟩
      · simp only [hsfLoop]
        rw [if_pos hflag]
        exact h1
      · simp only [hsfLoop]
        rw [if_pos hflag, h2, List.length_take, Nat.min_eq_left hk]
    · obtain ⟨l', g1, g2⟩ := ih (add_samples_from_dir spc tg
        (env.listing [root, "by_class", cname, "hsf_" ++ toString i]) 0 d t).1
        (add_samples_from_dir spc tg
        (env.listing [root, "by_class", cname, "hsf_" ++ toString i]) 0 d t).2.1
      refine ⟨(env.listing [root, "by_class", cname, "hsf_" ++ toString i]).take k ++ l', ?_, ?_⟩
      · simp only [hsfLoop]
        rw [if_neg hflag, g1, h1, List.append_assoc]
      · simp only [hsfLoop]
        rw [if_neg hflag, g2, h2, List.append_assoc, ← List.replicate_add,
          List.length_append, List.length_take, Nat.min_eq_left hk]

/-- Structure of one class-loop step: some list of images is appended to
`data`, matched by copies of the class character in `targets`. -/
theorem scanStep_shape (env : Env) (root : String) (train : Bool) (spc : Rat)
    (fm : FolderMapEntry) (acc : List Img × List Char) (k : Nat) :
    ∃ l : List Img,
      scanStep env root train spc fm acc k
        = (acc.1 ++ l, acc.2 ++ List.replicate l.length (Char.ofNat (fm.start + k))) := by
  cases train with
  | true =>
    obtain ⟨l, h1, h2⟩ := hsfLoop_shape env root (toHex (fm.start + k)) spc
      (Char.ofNat (fm.start + k)) (List.range 8) acc.1 acc.2
    exact ⟨l, by simp only [scanStep, if_true]; exact Prod.ext h1 h2⟩
  | false =>
    obtain ⟨k', hk', h1, h2⟩ := asd_shape spc (Char.ofNat (fm.start + k))
      (env.listing [root, "by_class", toHex (fm.start + k),
        "train_" ++ toHex (fm.start + k)]) 0 acc.1 acc.2
    refine ⟨(env.listing [root, "by_class", toHex (fm.start + k),
        "train_" ++ toHex (fm.start + k)]).take k', ?_⟩
    simp only [scanStep, Bool.false_eq_true, if_false]
    refine Prod.ext h1 ?_
    rw [h2, List.length_take, Nat.min_eq_left hk']

/-- Folding a step that keeps `data` and `targets` the same length
preserves that balance. -/
theorem foldl_balanced (step : (List Img × List Char) → Nat → (List Img × List Char))
    (hstep : ∀ acc k, acc.1.length = acc.2.length →
      (step acc k).1.length = (step acc k).2.length) :
    ∀ (ks : List Nat) (acc : List Img × List Char), acc.1.length = acc.2.length →
      (ks.foldl step acc).1.length = (ks.foldl step acc).2.length := by
  intro ks
  induction ks with
  | nil => intro acc h; simpa using h
  | cons a ks ih => intro acc h; exact ih (step acc a) (hstep acc a h)

/-- Every character in the folded `targets` list comes from the initial
accumulator or from some step. -/
theorem foldl_targets_mem (step : (List Img × List Char) → Nat → (List Img × List Char))
    (P : Nat → Char → Prop)
    (hstep : ∀ acc k c, c ∈ (step acc k).2 → c ∈ acc.2 ∨ P k c) :
    ∀ (ks : List Nat) (acc : List Img × List Char) (c : Char),
      c ∈ (ks.foldl step acc).2 → c ∈ acc.2 ∨ ∃ k, k ∈ ks ∧ P k c := by
  intro ks
  induction ks with
  | nil => intro acc c h; exact Or.inl (by simpa using h)
  | cons a ks ih =>
    intro acc c h
    rcases ih (step acc a) c (by simpa using h) with h' | ⟨k, hks, hP⟩
    · rcases hstep acc a c h' with h'' | hP
      · exact Or.inl h''
      · exact Or.inr ⟨a, by simp, hP⟩
    · exact Or.inr ⟨k, by simp [hks], hP⟩

/-- Folding a step that appends `f k` images to `data` yields the sum of
the `f k` over the fold. -/
theorem foldl_len_sum (step : (List Img × List Char) → Nat → (List Img × List Char))
    (f : Nat → Nat)
    (hstep : ∀ acc k, (step acc k).1.length = acc.1.length + f k) :
    ∀ (ks : List Nat) (acc : List Img × List Char),
      (ks.foldl step acc).1.length = acc.1.length + (ks.map f).sum := by
  intro ks
  induction ks with
  | nil => intro acc; simp
  | cons a ks ih =>
    intro acc
    rw [List.foldl_cons, ih (step acc a), hstep acc a]
    simp
    omega

/-- The class scan produces `data` and `targets` lists of equal length. -/
theorem scanClasses_balanced (env : Env) (root : String) (train : Bool)
    (spc : Rat) (fm : FolderMapEntry) :
    (scanClasses env root train spc fm).1.length
      = (scanClasses env root train spc fm).2.length := by
  unfold scanClasses
  refine foldl_balanced _ ?_ (List.range fm.len) ([], []) rfl
  intro acc k h
  obtain ⟨l, hl⟩ := scanStep_shape env root train spc fm acc k
  rw [hl]
  simp [h]

/-- Every character the class scan puts into `targets` is the `chr` of a
class code in the selected range. -/
theorem scanClasses_targets_mem (env : Env) (root : String) (train : Bool)
    (spc : Rat) (fm : FolderMapEntry) (c : Char)
    (hc : c ∈ (scanClasses env root train spc fm).2) :
    ∃ k, k < fm.len ∧ c = Char.ofNat (fm.start + k) := by
  unfold scanClasses at hc
  have hstep : ∀ (acc : List Img × List Char) (k : Nat) (c : Char),
      c ∈ (scanStep env root train spc fm acc k).2 →
        c ∈ acc.2 ∨ c = Char.ofNat (fm.start + k) := by
    intro acc k c hmem
    obtain ⟨l, hl⟩ := scanStep_shape env root train spc fm acc k
    rw [hl] at hmem
    rcases List.mem_append.mp hmem with h | h
    · exact Or.inl h
    · exact Or.inr (List.eq_of_mem_replicate h)
  rcases foldl_targets_mem _ _ hstep (List.range fm.len) ([], []) c hc with h | ⟨k, hk, hP⟩
  · simp at h
  · exact ⟨k, List.mem_range.mp hk, hP⟩

/-- C4: for every successfully constructed dataset, `__len__` returns the
length of `data`, and the `data` and `targets` lists have equal length:
every append during the scan adds one element to each, starting from the
empty pair. -/
theorem c4_parallel_lengths (env : Env) (root : String) (tr dl : Bool)
    (dt : Option String) (sl : Int) (pc : Bool) (tf : Option Nat) (ds : Dataset)
    (h : nistInit env root tr dl dt sl pc tf = .ok ds) :
    datasetLength ds = ds.data.length ∧ ds.data.length = ds.targets.length := by
  refine ⟨rfl, ?_⟩
  cases hfg : folder_map_get dt with
  | none => unfold nistInit at h; rw [hfg] at h; cases h
  | some fm =>
    obtain ⟨h1, h2, _, _⟩ := nistInit_ok_elim env root tr dl dt sl pc tf fm ds hfg h
    rw [h1, h2]
    exact scanClasses_balanced env (env.expanduser root) tr ds.size_per_class fm

/-- Witness for C4 at a concrete construction. -/
theorem c4_witness :
    ∃ ds, nistInit exEnv "r" true false (some "digits") 2 true none = .ok ds ∧
      datasetLength ds = ds.data.length ∧ ds.data.length = ds.targets.length := by
  have hok : (nistInit exEnv "r" true false (some "digits") 2 true none).toOption.isSome = true := by
    decide
  rcases hres : nistInit exEnv "r" true false (some "digits") 2 true none with e | ds
  · rw [hres] at hok; simp [Except.toOption] at hok
  · exact ⟨ds, rfl, c4_parallel_lengths exEnv "r" true false (some "digits") 2 true none ds hres⟩

/-- The fixed `folder_map` entry for digits. -/
theorem folder_map_digits : folder_map "digits" = some ⟨0x30, 10⟩ := by decide

/-- The fixed `folder_map` entry for capital letters. -/
theorem folder_map_cap : folder_map "cap_letters" = some ⟨0x41, 26⟩ := by decide

/-- The fixed `folder_map` entry for lowercase letters. -/
theorem folder_map_low : folder_map "low_letters" = some ⟨0x61, 26⟩ := by decide

/-- C5: every label of a successfully constructed dataset is the character
whose code point lies in the selected data-type class range: digits in
`[0x30, 0x3A)`, capital letters in `[0x41, 0x5B)`, lowercase letters in
`[0x61, 0x7B)`. -/
theorem c5_labels_in_range (env : Env) (root : String) (tr dl : Bool)
    (dt : String) (sl : Int) (pc : Bool) (tf : Option Nat) (ds : Dataset) (c : Char)
    (h : nistInit env root tr dl (some dt) sl pc tf = .ok ds)
    (hc : c ∈ ds.targets) :
    (dt = "digits" → 0x30 ≤ c.toNat ∧ c.toNat < 0x3A) ∧
    (dt = "cap_letters" → 0x41 ≤ c.toNat ∧ c.toNat < 0x5B) ∧
    (dt = "low_letters" → 0x61 ≤ c.toNat ∧ c.toNat < 0x7B) := by
  cases hfg : folder_map_get (some dt) with
  | none => unfold nistInit at h; rw [hfg] at h; cases h
  | some fm =>
    obtain ⟨_, h2, _, _⟩ := nistInit_ok_elim env root tr dl (some dt) sl pc tf fm ds hfg h
    rw [h2] at hc
    obtain ⟨k, hk, hck⟩ := scanClasses_targets_mem env (env.expanduser root) tr
      ds.size_per_class fm c hc
    subst hck
    simp only [folder_map_get] at hfg
    refine ⟨?_, ?_, ?_⟩
    · intro hdt
      subst hdt
      rw [folder_map_digits, Option.some.injEq] at hfg
      subst hfg
      exact (show ∀ j, j < 10 → 0x30 ≤ (Char.ofNat (0x30 + j)).toNat ∧
        (Char.ofNat (0x30 + j)).toNat < 0x3A by decide) k hk
    · intro hdt
      subst hdt
      rw [folder_map_cap, Option.some.injEq] at hfg
      subst hfg
      exact (show ∀ j, j < 26 → 0x41 ≤ (Char.ofNat (0x41 + j)).toNat ∧
        (Char.ofNat (0x41 + j)).toNat < 0x5B by decide) k hk
    · intro hdt
      subst hdt
      rw [folder_map_low, Option.some.injEq] at hfg
      subst hfg
      exact (show ∀ j, j < 26 → 0x61 ≤ (Char.ofNat (0x61 + j)).toNat ∧
        (Char.ofNat (0x61 + j)).toNat < 0x7B by decide) k hk

/-- Witness for C5 at a concrete construction and a concrete label. -/
theorem c5_witness :
    nistInit exEnv "r" true false (some "digits") 2 true none = .ok exDs ∧
    Char.ofNat 0x30 ∈ exDs.targets ∧
    (("digits" : String) = "digits" →
      0x30 ≤ (Char.ofNat 0x30).toNat ∧ (Char.ofNat 0x30).toNat < 0x3A) ∧
    (("digits" : String) = "cap_letters" →
      0x41 ≤ (Char.ofNat 0x30).toNat ∧ (Char.ofNat 0x30).toNat < 0x5B) ∧
    (("digits" : String) = "low_letters" →
      0x61 ≤ (Char.ofNat 0x30).toNat ∧ (Char.ofNat 0x30).toNat < 0x7B) := by
  have h : nistInit exEnv "r" true false (some "digits") 2 true none = .ok exDs := by decide
  have hmem : Char.ofNat 0x30 ∈ exDs.targets := by decide
  exact ⟨h, hmem,
    c5_labels_in_range exEnv "r" true false "digits" 2 true none exDs (Char.ofNat 0x30) h hmem⟩

/-- C1, evaluated at the failing input: train mode, integer per-class limit
2, class `30` holding one image in `hsf_0` and two in `hsf_1`.  The run
succeeds and collects 3 samples for class `'0'`, exceeding the limit,
because the counter handed to `_add_samples_from_dir` restarts at zero for
every writer partition (a Python int is passed by value, so the callee's
increments never update the caller's `newly_added`). -/
theorem c1_per_class_limit_exceeded :
    classCount (nistInit exEnv "r" true false (some "digits") 2 true none)
      (Char.ofNat 0x30) = 3 ∧ (2 : Nat) < 3 := ⟨by decide, by decide⟩

/-- C2 counterexample: in test mode with `size_limit = 2`, the `train_30`
directory holds 3 files but only 2 samples are appended — the limit check
inside `_add_samples_from_dir` still stops the scan of the directory even
though its return value is discarded by the test branch. -/
theorem c2_counterexample :
    (exEnv.listing ["r", "by_class", "30", "train_30"]).length = 3 ∧
    classCount (nistInit exEnv "r" false false (some "digits") 2 true none)
      (Char.ofNat 0x30) = 2 := ⟨by decide, by decide⟩

/-- In test mode with an integer limit `m ≥ 1`, the scan appends
`min |directory| m` samples for each class. -/
theorem scanClasses_test_len (env : Env) (root : String) (m : Nat) (hm : 1 ≤ m)
    (fm : FolderMapEntry) :
    (scanClasses env root false (m : Rat) fm).1.length
      = ((List.range fm.len).map (fun k =>
          min (env.listing [root, "by_class", toHex (fm.start + k),
            "train_" ++ toHex (fm.start + k)]).length m)).sum := by
  unfold scanClasses
  have hstep : ∀ (acc : List Img × List Char) (k : Nat),
      (scanStep env root false (m : Rat) fm acc k).1.length
        = acc.1.length + min (env.listing [root, "by_class", toHex (fm.start + k),
            "train_" ++ toHex (fm.start + k)]).length m := by
    intro acc k
    have h1 := (asd_int_length m (Char.ofNat (fm.start + k))
      (env.listing [root, "by_class", toHex (fm.start + k),
        "train_" ++ toHex (fm.start + k)]) 0 acc.1 acc.2 (by omega)).1
    simp only [scanStep, Bool.false_eq_true, if_false]
    simpa using h1
  have h := foldl_len_sum _ _ hstep (List.range fm.len) ([], [])
  simpa using h

/-- C2 amended: in test mode the single `train_<hex>` folder per class is
scanned by the same counter-limited routine (starting at zero), so when the
per-class limit is a positive integer, exactly `min |directory| size_limit`
files are appended per class; only the returned break flag is discarded by
the test branch. -/
theorem c2_amended_min_limit (env : Env) (root : String) (dl : Bool) (dt : String)
    (fm : FolderMapEntry) (sl : Int) (tf : Option Nat) (ds : Dataset)
    (hfm : folder_map dt = some fm) (hsl : 1 ≤ sl)
    (h : nistInit env root false dl (some dt) sl true tf = .ok ds) :
    datasetLength ds = ((List.range fm.len).map (fun k =>
      min (env.listing [env.expanduser root, "by_class", toHex (fm.start + k),
        "train_" ++ toHex (fm.start + k)]).length sl.toNat)).sum := by
  have hfg : folder_map_get (some dt) = some fm := by simp [folder_map_get, hfm]
  obtain ⟨h1, _, h3, _⟩ := nistInit_ok_elim env root false dl (some dt) sl true tf fm ds hfg h
  have hspc : ds.size_per_class = (sl : Rat) := by simpa using h3
  have hcast : ((sl.toNat : Nat) : Rat) = (sl : Rat) := by
    exact_mod_cast Int.toNat_of_nonneg (by omega : (0 : Int) ≤ sl)
  have hm : 1 ≤ sl.toNat := by omega
  rw [show datasetLength ds = ds.data.length from rfl, h1, hspc, ← hcast]
  exact scanClasses_test_len env (env.expanduser root) sl.toNat hm fm

/-- Witness for the amended C2 at a concrete construction. -/
theorem c2_amended_witness :
    folder_map "digits" = some ⟨0x30, 10⟩ ∧ (1 : Int) ≤ 2 ∧
    nistInit exEnv "r" false false (some "digits") 2 true none = .ok exDsTest ∧
    datasetLength exDsTest = ((List.range (10 : Nat)).map (fun k =>
      min (exEnv.listing [exEnv.expanduser "r", "by_class", toHex (0x30 + k),
        "train_" ++ toHex (0x30 + k)]).length (2 : Int).toNat)).sum := by
  have h : nistInit exEnv "r" false false (some "digits") 2 true none = .ok exDsTest := by
    decide
  refine ⟨by decide, by decide, h, ?_⟩
  exact c2_amended_min_limit exEnv "r" false "digits" ⟨0x30, 10⟩ 2 none exDsTest
    (by decide) (by decide) h

/-- When no integer counter value can equal `size_per_class`, the
`hsf_0..hsf_7` loop appends every image of every partition. -/
theorem hsfLoop_nohit_len (env : Env) (root cname : String) (spc : Rat) (tg : Char)
    (hno : ∀ j : Nat, (j : Rat) ≠ spc) :
    ∀ (idxs : List Nat) (d : List Img) (t : List Char),
      (hsfLoop env root cname spc tg idxs d t).1.length
        = d.length + (idxs.map (fun i =>
            (env.listing [root, "by_class", cname, "hsf_" ++ toString i]).length)).sum := by
  intro idxs
  induction idxs with
  | nil => intro d t; simp [hsfLoop]
  | cons i rest ih =>
    intro d t
    simp only [hsfLoop, asd_nohit spc tg hno]
    norm_num
    rw [ih]
    simp
    omega

/-- With an unreachable `size_per_class`, the train-mode scan collects
every image of every `hsf` partition of every class. -/
theorem scanClasses_nohit_len (env : Env) (root : String) (spc : Rat)
    (fm : FolderMapEntry) (hno : ∀ j : Nat, (j : Rat) ≠ spc) :
    (scanClasses env root true spc fm).1.length
      = ((List.range fm.len).map (fun k => ((List.range 8).map (fun i =>
          (env.listing [root, "by_class", toHex (fm.start + k),
            "hsf_" ++ toString i]).length)).sum)).sum := by
  unfold scanClasses
  have hstep : ∀ (acc : List Img × List Char) (k : Nat),
      (scanStep env root true spc fm acc k).1.length
        = acc.1.length + ((List.range 8).map (fun i =>
            (env.listing [root, "by_class", toHex (fm.start + k),
              "hsf_" ++ toString i]).length)).sum := by
    intro acc k
    have h := hsfLoop_nohit_len env root (toHex (fm.start + k)) spc
      (Char.ofNat (fm.start + k)) hno (List.range 8) acc.1 acc.2
    simpa [scanStep] using h
  have h := foldl_len_sum _ _ hstep (List.range fm.len) ([], [])
  simpa using h

/-- The double rounding in the cap is material: at
`size_limit = 26 * 2^51 + 1` (not divisible by 26) over the 26 letter
classes, the exact quotient `2^51 + 1/26` is fractional, yet the correctly
rounded double is the integer `2^51` (doubles are spaced 0.5 there), so
the stored cap is integer-valued and reachable by the counter. -/
theorem floatDiv_integer_at_large_input :
    ¬ ((26 : Int) ∣ (26 * 2 ^ 51 + 1)) ∧
    (floatDiv (26 * 2 ^ 51 + 1) 26).den = 1 ∧
    floatDiv (26 * 2 ^ 51 + 1) 26 = ((2 ^ 51 : Int) : Rat) := by
  refine ⟨by decide, ?_, ?_⟩ <;> with_unfolding_all rfl

/-- C3: with `size_limit_per_class = false`, the stored per-class cap is
`size_limit / number_of_classes` under floating-point true division (the
correctly rounded double of the exact quotient); when that quotient is
fractional (denominator not 1), no integer counter ever compares equal to
it, so the train-mode scan is unbounded: every file of every partition of
every class is appended. -/
theorem c3_fractional_cap_unbounded (env : Env) (root : String) (dl : Bool)
    (dt : String) (fm : FolderMapEntry) (sl : Int) (tf : Option Nat) (ds : Dataset)
    (hfm : folder_map dt = some fm)
    (hfrac : (floatDiv sl fm.len).den ≠ 1)
    (h : nistInit env root true dl (some dt) sl false tf = .ok ds) :
    ds.size_per_class = floatDiv sl fm.len ∧
    (∀ j : Nat, (j : Rat) ≠ ds.size_per_class) ∧
    datasetLength ds = ((List.range fm.len).map (fun k => ((List.range 8).map (fun i =>
      (env.listing [env.expanduser root, "by_class", toHex (fm.start + k),
        "hsf_" ++ toString i]).length)).sum)).sum := by
  have hfg : folder_map_get (some dt) = some fm := by simp [folder_map_get, hfm]
  obtain ⟨h1, _, h3, _⟩ := nistInit_ok_elim env root true dl (some dt) sl false tf fm ds hfg h
  have hspc : ds.size_per_class = floatDiv sl fm.len := by simpa using h3
  have hno : ∀ j : Nat, (j : Rat) ≠ floatDiv sl fm.len := by
    intro j hj
    apply hfrac
    rw [← hj]
    exact Rat.den_natCast j
  refine ⟨hspc, ?_, ?_⟩
  · rw [hspc]; exact hno
  · rw [show datasetLength ds = ds.data.length from rfl, h1, hspc]
    exact scanClasses_nohit_len env (env.expanduser root) _ fm hno

/-- Witness for C3 at a concrete construction whose rounded double cap,
15 / 10 = 1.5, is fractional. -/
theorem c3_witness :
    folder_map "digits" = some ⟨0x30, 10⟩ ∧
    (floatDiv 15 10).den ≠ 1 ∧
    nistInit exEnv "r" true false (some "digits") 15 false none = .ok exDsFrac ∧
    (exDsFrac.size_per_class = floatDiv 15 10 ∧
     (∀ j : Nat, (j : Rat) ≠ exDsFrac.size_per_class) ∧
     datasetLength exDsFrac = ((List.range (10 : Nat)).map (fun k =>
       ((List.range 8).map (fun i =>
         (exEnv.listing [exEnv.expanduser "r", "by_class", toHex (0x30 + k),
           "hsf_" ++ toString i]).length)).sum)).sum) := by
  have h : nistInit exEnv "r" true false (some "digits") 15 false none = .ok exDsFrac := by
    with_unfolding_all rfl
  have hfrac : (floatDiv 15 10).den ≠ 1 := by with_unfolding_all decide
  refine ⟨by decide, hfrac, h, ?_⟩
  exact c3_fractional_cap_unbounded exEnv "r" false "digits" ⟨0x30, 10⟩ 15 none exDsFrac
    (by decide) hfrac h

/-- C6: saving a dataset to a fresh path under an existing directory and
loading it back yields a dataset with the same length, identical label
sequence, and pixel-identical images. -/
theorem c6_save_load_roundtrip (fs : FileSys) (D : Dataset) (path : String)
    (fo : Bool)
    (hdir : fsPathExists fs (dirname path) = true)
    (hnofile : fsPathExists fs path = false) :
    ∃ fs', save_to_file fs (.ds D) path fo = (fs', .ok ()) ∧
      ∃ D', load_from_file fs' path = .ok D' ∧
        datasetLength D' = datasetLength D ∧ D'.targets = D.targets ∧
        D'.data = D.data := by
  refine ⟨{ fs with files := (path, D) :: fs.files }, ?_, D, ?_, rfl, rfl, rfl⟩
  · simp [save_to_file, hdir, hnofile]
  · simp [load_from_file, fsPathExists, fileExists, List.lookup]

/-- Witness for C6 at a concrete filesystem, dataset and path. -/
theorem c6_witness :
    fsPathExists exFs (dirname "d/f.bin") = true ∧
    fsPathExists exFs "d/f.bin" = false ∧
    ∃ fs', save_to_file exFs (.ds exDs) "d/f.bin" false = (fs', .ok ()) ∧
      ∃ D', load_from_file fs' "d/f.bin" = .ok D' ∧
        datasetLength D' = datasetLength exDs ∧ D'.targets = exDs.targets ∧
        D'.data = exDs.data :=
  ⟨by decide, by decide,
    c6_save_load_roundtrip exFs exDs "d/f.bin" false (by decide) (by decide)⟩

/-- C7: saving to a path where a file already exists, with
`force_overwrite` left false, returns normally and leaves the filesystem —
in particular the existing file's bytes — entirely unchanged. -/
theorem c7_save_existing_noop (fs : FileSys) (D : Dataset) (path : String)
    (hdir : fsPathExists fs (dirname path) = true)
    (hfile : fileExists fs path = true) :
    save_to_file fs (.ds D) path false = (fs, .ok ()) := by
  have hpe : fsPathExists fs path = true := by
    simp [fsPathExists, hfile]
  simp [save_to_file, hdir, hpe]

/-- Witness for C7 at a concrete filesystem and path. -/
theorem c7_witness :
    fsPathExists exFs2 (dirname "d/f.bin") = true ∧
    fileExists exFs2 "d/f.bin" = true ∧
    save_to_file exFs2 (.ds exDsTest) "d/f.bin" false = (exFs2, .ok ()) :=
  ⟨by decide, by decide,
    c7_save_existing_noop exFs2 exDsTest "d/f.bin" (by decide) (by decide)⟩

/-- C10: `save_to_file` with an object that is not an instance of the
dataset class raises the type error and touches nothing: the returned
filesystem is the input filesystem, for every filesystem, path and flag. -/
theorem c10_save_non_dataset_error (fs : FileSys) (descr : String)
    (path : String) (fo : Bool) :
    save_to_file fs (.other descr) path fo = (fs, .error (.notDataset descr)) := rfl

/-- C8: when `data_type` is omitted (`None`) or is not one of the three
recognized keys, construction raises the configuration error before
anything else: the result is the same for every environment, so no
download, scan or sample accumulation can have been attempted. -/
theorem c8_bad_data_type_error (env : Env) (root : String) (tr dl : Bool)
    (dt : Option String) (sl : Int) (pc : Bool) (tf : Option Nat)
    (hdt : dt = none ∨ ∃ s, dt = some s ∧ s ≠ "digits" ∧ s ≠ "cap_letters" ∧
      s ≠ "low_letters") :
    nistInit env root tr dl dt sl pc tf = .error .badDataType := by
  have hfg : folder_map_get dt = none := by
    rcases hdt with rfl | ⟨s, rfl, h1, h2, h3⟩
    · rfl
    · simp [folder_map_get, folder_map, h1, h2, h3]
  unfold nistInit
  rw [hfg]

/-- Witness for C8 at a concrete unrecognized key. -/
theorem c8_witness :
    ((some "Digits" : Option String) = none ∨ ∃ s, (some "Digits" : Option String) = some s ∧
      s ≠ "digits" ∧ s ≠ "cap_letters" ∧ s ≠ "low_letters") ∧
    nistInit exEnv "r" true true (some "Digits") 1000 true none = .error .badDataType :=
  ⟨Or.inr ⟨"Digits", rfl, by decide, by decide, by decide⟩,
   c8_bad_data_type_error exEnv "r" true true (some "Digits") 1000 true none
     (Or.inr ⟨"Digits", rfl, by decide, by decide, by decide⟩)⟩

/-- C9 counterexample: with the root directory missing AND `data_type`
omitted, construction raises the `data_type` configuration error, not the
root-path precondition error — the `data_type` check runs first, so the
claimed "regardless of other arguments (including data_type)" fails. -/
theorem c9_counterexample :
    exEnvNoRoot.path_exists (exEnvNoRoot.expanduser "r") = false ∧
    nistInit exEnvNoRoot "r" true false none 1000 true none = .error .badDataType ∧
    Err.badDataType ≠ Err.rootMissing (exEnvNoRoot.expanduser "r") :=
  ⟨rfl, by decide, by decide⟩

/-- C9 amended: when the expanded root directory does not exist and
`data_type` is one of the recognized keys, construction raises the
root-path precondition error, regardless of the remaining arguments. -/
theorem c9_amended_root_missing (env : Env) (root : String) (tr dl : Bool)
    (dt : Option String) (fm : FolderMapEntry) (sl : Int) (pc : Bool)
    (tf : Option Nat)
    (hfg : folder_map_get dt = some fm)
    (hroot : env.path_exists (env.expanduser root) = false) :
    nistInit env root tr dl dt sl pc tf
      = .error (.rootMissing (env.expanduser root)) := by
  unfold nistInit
  rw [hfg]
  simp [hroot]

/-- Witness for the amended C9 at a concrete environment. -/
theorem c9_witness :
    folder_map_get (some "digits") = some ⟨0x30, 10⟩ ∧
    exEnvNoRoot.path_exists (exEnvNoRoot.expanduser "r") = false ∧
    nistInit exEnvNoRoot "r" true false (some "digits") 1000 true none
      = .error (.rootMissing (exEnvNoRoot.expanduser "r")) :=
  ⟨by decide, rfl,
   c9_amended_root_missing exEnvNoRoot "r" true false (some "digits") ⟨0x30, 10⟩
     1000 true none (by decide) rfl⟩
